import Mathlib

/-!
Verification development for the real-time collaborative editor backend
(`src/backend/server.ts`).

The backend keeps four pieces of in-memory state:
* `document : QuillDelta` — the shared document, advanced by `compose`;
* `users : Map<string, string>` — socket id to username;
* `typingUsers : Set<string>` — usernames currently typing;
* `typingTimeouts : Map<string, Timeout>` — the last timer set per username.

We embed this state machine shallowly: JS `Map`s become association lists in
insertion order (`Map.set` updates in place, `Map.delete` removes), JS `Set`s
become duplicate-free lists in insertion order, and `setTimeout` becomes an
explicit list of pending timers carrying an id, the captured username and an
absolute expiry instant; `clearTimeout` removes a pending timer by id, and the
passage of time fires due timers in expiry order.

The document representation is the `quill-delta` npm package used by the
server.  Its `Delta.compose` is modelled below from that library's algorithm
(iterator-based merge with an infinite-retain filler once a side is exhausted,
`push` coalescing and a final `chop`), restricted to attribute-free operations,
which is all the claims exercise.
-/

namespace RTEditor

/-- One quill-delta operation: insert a string, retain `n` characters, or
delete `n` characters.  Formatting attributes are not modelled. -/
inductive Op where
  | ins (s : String)
  | ret (n : Nat)
  | del (n : Nat)
deriving DecidableEq, Repr

/-- A delta is an ordered list of operations; a document is a delta that
describes "insert all this content" from empty. -/
abbrev Delta := List Op

/-- Length of an operation, as `quill-delta`'s `Op.length`. -/
def opLen : Op → Nat
  | .ins s => s.length
  | .ret n => n
  | .del n => n

/-- First `n` characters of a string (via the underlying character list). -/
def strTake (s : String) (n : Nat) : String := String.mk (s.data.take n)

/-- All but the first `n` characters of a string. -/
def strDrop (s : String) (n : Nat) : String := String.mk (s.data.drop n)

/-- `Delta.push` from `quill-delta`: append an operation, merging it with the
last one when both are inserts, both are deletes or both are retains, and
placing an insert before a trailing delete (in which case it may merge with
the insert before that delete). -/
def pushOp (ops : Delta) (o : Op) : Delta :=
  match o with
  | .del n =>
    match ops.getLast? with
    | some (.del m) => ops.dropLast ++ [.del (m + n)]
    | _ => ops ++ [o]
  | .ins s =>
    match ops.getLast? with
    | some (.del m) =>
      let front := ops.dropLast
      match front.getLast? with
      | some (.ins t) => front.dropLast ++ [.ins (t ++ s), .del m]
      | _ => front ++ [.ins s, .del m]
    | some (.ins t) => ops.dropLast ++ [.ins (t ++ s)]
    | _ => ops ++ [o]
  | .ret n =>
    match ops.getLast? with
    | some (.ret m) => ops.dropLast ++ [.ret (m + n)]
    | _ => ops ++ [o]

/-- `Delta.chop`: drop a trailing plain retain. -/
def chop (ops : Delta) : Delta :=
  match ops.getLast? with
  | some (.ret _) => ops.dropLast
  | _ => ops

/-- Consume the first `l` units of a delta (the iterator's `next(l)` advance
for `0 < l ≤` length of the head operation; a fully consumed head is
dropped). -/
def consume : Delta → Nat → Delta
  | [], _ => []
  | o :: rest, l =>
    if opLen o ≤ l then rest
    else
      match o with
      | .ins s => .ins (strDrop s l) :: rest
      | .ret n => .ret (n - l) :: rest
      | .del n => .del (n - l) :: rest

/-- Fuel that strictly bounds the number of iterations of the compose loop. -/
def fuelFor (a b : Delta) : Nat :=
  a.length + b.length
    + a.foldl (fun n o => n + opLen o) 0
    + b.foldl (fun n o => n + opLen o) 0 + 1

/-- The merge loop of `quill-delta`'s `Delta.compose`.  Mirrors the source:
an insert on the other side is pushed first; then a delete on this side is
pushed; otherwise both iterators step by the minimum of the two head lengths
(an exhausted iterator behaves as an infinite plain retain, and a zero head
length makes `next(0)` consume a whole operation on both sides, as in the
library where `0` is a falsy length). -/
def composeLoop : Nat → Delta → Delta → Delta → Delta
  | 0, acc, _, _ => acc
  | fuel + 1, acc, a, b =>
    match a, b with
    | [], [] => acc
    | a, .ins s :: b1 => composeLoop fuel (pushOp acc (.ins s)) a b1
    | .del n :: a1, b => composeLoop fuel (pushOp acc (.del n)) a1 b
    | [], .ret m :: b1 => composeLoop fuel (pushOp acc (.ret m)) [] b1
    | [], .del m :: b1 => composeLoop fuel (pushOp acc (.del m)) [] b1
    | o :: a1, [] => composeLoop fuel (pushOp acc o) a1 []
    | o :: a1, p :: b1 =>
      let l := min (opLen o) (opLen p)
      if l = 0 then
        let acc1 :=
          match p, o with
          | .ret _, .ret _ => pushOp acc (.ret 0)
          | .ret _, .ins s => pushOp acc (.ins s)
          | .del _, .ret _ => pushOp acc (.del 0)
          | _, _ => acc
        composeLoop fuel acc1 a1 b1
      else
        let acc1 :=
          match p, o with
          | .ret _, .ret _ => pushOp acc (.ret l)
          | .ret _, .ins s => pushOp acc (.ins (strTake s l))
          | .del _, .ret _ => pushOp acc (.del l)
          | _, _ => acc
        composeLoop fuel acc1 (consume (o :: a1) l) (consume (p :: b1) l)

/-- `Delta.compose` from the `quill-delta` library: `compose d e` applies the
change `e` on top of the state `d`. -/
def compose (a b : Delta) : Delta :=
  chop (composeLoop (fuelFor a b) [] a b)

/-- Sum of the retain and delete spans of a delta: the length of base document
the delta consumes. -/
def baseLen (d : Delta) : Nat :=
  d.foldl
    (fun n o =>
      match o with
      | .ins _ => n
      | .ret m => n + m
      | .del m => n + m) 0

/-- Content length of a document delta (inserted characters plus retained
span). -/
def contentLen (d : Delta) : Nat :=
  d.foldl
    (fun n o =>
      match o with
      | .ins s => n + s.length
      | .ret m => n + m
      | .del _ => n) 0

/-! ### Association-list model of JS `Map` and `Set` -/

/-- `Map.get`: the value stored under `k`, if any. -/
def mapLookup {α : Type} (m : List (String × α)) (k : String) : Option α :=
  (m.find? (fun p => p.1 = k)).map Prod.snd

/-- `Map.set`: update the entry for `k` in place if present (keeping its
insertion position), otherwise append a new entry. -/
def mapSet {α : Type} (m : List (String × α)) (k : String) (v : α) :
    List (String × α) :=
  if m.any (fun p => p.1 = k) then
    m.map (fun p => if p.1 = k then (k, v) else p)
  else m ++ [(k, v)]

/-- `Map.delete`: remove the entry for `k`. -/
def mapDelete {α : Type} (m : List (String × α)) (k : String) :
    List (String × α) :=
  m.filter (fun p => p.1 ≠ k)

/-- `Set.add`: append if not present. -/
def setAdd (s : List String) (x : String) : List String :=
  if s.contains x then s else s ++ [x]

/-- `Set.delete`: remove all occurrences (a set holds at most one). -/
def setDelete (s : List String) (x : String) : List String :=
  s.filter (fun y => y ≠ x)

/-! ### Server state -/

/-- A pending `setTimeout` timer: its handle, the username captured by the
callback closure, and the absolute instant at which it fires. -/
structure PTimer where
  id : Nat
  user : String
  expiry : Nat
deriving DecidableEq, Repr

/-- The in-memory state of the server process (`server.ts` top level), plus an
explicit clock and timer queue for the `setTimeout`-based typing expiry. -/
structure ServerState where
  now : Nat
  document : Delta
  users : List (String × String)
  typingUsers : List String
  typingTimeouts : List (String × Nat)
  pending : List PTimer
  nextId : Nat
deriving DecidableEq, Repr

/-- The state at process start: empty document, no users, no timers. -/
def initialState : ServerState :=
  { now := 0, document := [], users := [], typingUsers := [],
    typingTimeouts := [], pending := [], nextId := 0 }

/-- A message emitted by the server: an acknowledgement callback to one
socket, a `socket.emit` to one socket, a `socket.broadcast.emit` to everyone
but the origin, or an `io.emit` to everyone. -/
inductive Msg where
  | callbackResult (sid : String) (success : Bool) (message : Option String)
  | loadDocument (sid : String) (doc : Delta)
  | userList (names : List String)
  | receiveChanges (origin : String) (delta : Delta) (user : String)
  | typingMsg (username : String)
  | stopTypingMsg (username : String)
deriving DecidableEq, Repr

/-! ### Handlers, translated one-to-one from `server.ts` -/

/-- The `join` handler: reject when the username is already among the map's
values (ack `{success: false}` to the caller only); otherwise store the
mapping, send the current document to the joiner, broadcast the updated user
list to everyone, and ack `{success: true}`. -/
def handleJoin (st : ServerState) (sid username : String) (hasCb : Bool) :
    ServerState × List Msg :=
  let isUsernameTaken := (st.users.map Prod.snd).contains username
  if isUsernameTaken then
    (st,
      if hasCb then
        [Msg.callbackResult sid false (some "Username is already taken")]
      else [])
  else
    let users1 := mapSet st.users sid username
    ({ st with users := users1 },
      [Msg.loadDocument sid st.document,
       Msg.userList (users1.map Prod.snd)]
        ++ if hasCb then [Msg.callbackResult sid true none] else [])

/-- The `get-document` handler: reply with the current document snapshot. -/
def handleGetDocument (st : ServerState) (sid : String) :
    ServerState × List Msg :=
  (st, [Msg.loadDocument sid st.document])

/-- The `send-changes` handler: look up the sender's username (defaulting to
`"Unknown"`), broadcast the delta to all other sockets, and replace the
document with `document.compose(delta)`.  There is no validation and no
rejection path. -/
def handleSendChanges (st : ServerState) (sid : String) (delta : Delta) :
    ServerState × List Msg :=
  let user := (mapLookup st.users sid).getD "Unknown"
  ({ st with document := compose st.document delta },
    [Msg.receiveChanges sid delta user])

/-- The `handleTyping` helper: broadcast `typing` only when the username is
newly added to `typingUsers`; clear any previous timeout recorded for the
username; schedule a fresh 1000 ms timeout and record its handle. -/
def handleTyping (st : ServerState) (username : String) :
    ServerState × List Msg :=
  let (typingUsers1, msgs) :=
    if st.typingUsers.contains username then (st.typingUsers, [])
    else (st.typingUsers ++ [username], [Msg.typingMsg username])
  let pending1 :=
    match mapLookup st.typingTimeouts username with
    | some tid => st.pending.filter (fun q => q.id ≠ tid)
    | none => st.pending
  let tid := st.nextId
  ({ st with
      typingUsers := typingUsers1,
      pending := pending1 ++ [⟨tid, username, st.now + 1000⟩],
      typingTimeouts := mapSet st.typingTimeouts username tid,
      nextId := tid + 1 }, msgs)

/-- The `stop-typing` handler: delete the username from `typingUsers` and
broadcast `stop-typing` unconditionally.  The recorded timeout is neither
cleared nor forgotten. -/
def handleStopTyping (st : ServerState) (username : String) :
    ServerState × List Msg :=
  ({ st with typingUsers := setDelete st.typingUsers username },
    [Msg.stopTypingMsg username])

/-- The `disconnect` handler: if the socket had joined, delete its username
from `typingUsers` and broadcast the user list — computed from `users` before
the socket's entry is deleted; then delete the socket's entry.  No
`stop-typing` is broadcast and no timeout is cleared. -/
def handleDisconnect (st : ServerState) (sid : String) :
    ServerState × List Msg :=
  match mapLookup st.users sid with
  | some username =>
    ({ st with
        typingUsers := setDelete st.typingUsers username,
        users := mapDelete st.users sid },
      [Msg.userList (st.users.map Prod.snd)])
  | none => ({ st with users := mapDelete st.users sid }, [])

/-! ### Timers and time -/

/-- Fire one pending timer: run the callback scheduled in `handleTyping`
(delete the username from `typingUsers`, broadcast `stop-typing`) and retire
the timer from the pending queue.  The `typingTimeouts` entry is left behind,
as in the source. -/
def fireOne (st : ServerState) (p : PTimer) : ServerState × Msg :=
  ({ st with
      typingUsers := setDelete st.typingUsers p.user,
      pending := st.pending.filter (fun q => q.id ≠ p.id) },
    Msg.stopTypingMsg p.user)

/-- The earliest due pending timer (expiry ≤ now), preferring the earlier
expiry and, on ties, the one scheduled first. -/
def earliestDue : List PTimer → Nat → Option PTimer
  | [], _ => none
  | p :: ps, now =>
    match earliestDue ps now with
    | none => if p.expiry ≤ now then some p else none
    | some q =>
      if p.expiry ≤ now then
        if p.expiry ≤ q.expiry then some p else some q
      else some q

/-- Fire all due timers, earliest first, collecting their broadcasts. -/
def runDue : Nat → ServerState → ServerState × List Msg
  | 0, st => (st, [])
  | fuel + 1, st =>
    match earliestDue st.pending st.now with
    | none => (st, [])
    | some p =>
      let r1 := fireOne st p
      let r2 := runDue fuel r1.1
      (r2.1, r1.2 :: r2.2)

/-- Let the clock advance to instant `t` with no intervening client event:
every pending timer whose expiry has passed fires, in order. -/
def advanceTo (st : ServerState) (t : Nat) : ServerState × List Msg :=
  let st1 := { st with now := t }
  runDue st1.pending.length st1

/-! ### Event dispatch -/

/-- A protocol event arriving at the server, or the passage of time. -/
inductive Event where
  | join (sid username : String) (hasCb : Bool)
  | getDocument (sid : String)
  | sendChanges (sid : String) (delta : Delta)
  | typing (sid username : String)
  | stopTyping (sid username : String)
  | disconnect (sid : String)
  | advance (t : Nat)
deriving DecidableEq, Repr

/-- Dispatch one event to its handler, as the `io.on("connection")` wiring
does.  The `typing` handler passes only the payload username to
`handleTyping`; the socket is not consulted. -/
def step (st : ServerState) : Event → ServerState × List Msg
  | .join sid u cb => handleJoin st sid u cb
  | .getDocument sid => handleGetDocument st sid
  | .sendChanges sid d => handleSendChanges st sid d
  | .typing _ u => handleTyping st u
  | .stopTyping _ u => handleStopTyping st u
  | .disconnect sid => handleDisconnect st sid
  | .advance t => advanceTo st t

/-- Process a sequence of events, concatenating the emitted messages. -/
def run (st : ServerState) : List Event → ServerState × List Msg
  | [] => (st, [])
  | e :: es =>
    let r1 := step st e
    let r2 := run r1.1 es
    (r2.1, r1.2 ++ r2.2)

/-- The deltas carried by the `send-changes` events of a trace, in order. -/
def sentDeltas : List Event → List Delta
  | [] => []
  | .sendChanges _ d :: es => d :: sentDeltas es
  | _ :: es => sentDeltas es

/-! ### Helper lemmas about the `Map`/`Set` model -/

theorem mapLookup_overwrite {α : Type} (m : List (String × α)) (k : String)
    (v : α) :
    m.any (fun p => p.1 = k) = true →
    mapLookup (m.map (fun p => if p.1 = k then (k, v) else p)) k = some v := by
  induction m with
  | nil => intro h; simp at h
  | cons p m ih =>
    intro h
    by_cases hp : p.1 = k
    · simp [mapLookup, hp]
    · simp only [List.any_cons, hp, decide_False, Bool.false_or] at h
      simpa [mapLookup, hp] using ih h

theorem mapLookup_append_new {α : Type} (m : List (String × α)) (k : String)
    (v : α) :
    m.any (fun p => p.1 = k) = false →
    mapLookup (m ++ [(k, v)]) k = some v := by
  induction m with
  | nil => intro _; simp [mapLookup]
  | cons p m ih =>
    intro h
    simp only [List.any_cons, Bool.or_eq_false_iff] at h
    have hp : ¬ p.1 = k := by simpa using h.1
    simpa [mapLookup, hp] using ih h.2

/-- `Map.get` after `Map.set` of the same key returns the value just set. -/
theorem mapLookup_mapSet_self {α : Type} (m : List (String × α)) (k : String)
    (v : α) :
    mapLookup (mapSet m k v) k = some v := by
  unfold mapSet
  cases hb : m.any (fun p => p.1 = k) with
  | true => simpa [hb] using mapLookup_overwrite m k v hb
  | false => simpa [hb] using mapLookup_append_new m k v hb

/-- After `Map.set m k v`, the value `v` is among the map's values. -/
theorem mem_values_mapSet {α : Type} (m : List (String × α)) (k : String)
    (v : α) :
    v ∈ (mapSet m k v).map Prod.snd := by
  unfold mapSet
  cases hb : m.any (fun p => p.1 = k) with
  | true =>
    simp only [hb, if_true]
    obtain ⟨p, hp, hpk⟩ := List.any_eq_true.mp hb
    have hpk' : p.1 = k := by simpa using hpk
    refine List.mem_map.mpr ⟨(k, v), ?_, rfl⟩
    refine List.mem_map.mpr ⟨p, hp, ?_⟩
    simp [hpk']
  | false => simp [hb]

/-! ### Helper lemmas: only `send-changes` advances the document -/

theorem fireOne_document (st : ServerState) (p : PTimer) :
    (fireOne st p).1.document = st.document := rfl

theorem runDue_document (fuel : Nat) (st : ServerState) :
    (runDue fuel st).1.document = st.document := by
  induction fuel generalizing st with
  | zero => rfl
  | succ n ih =>
    unfold runDue
    cases h : earliestDue st.pending st.now with
    | none => rfl
    | some p => simp [ih, fireOne]

/-- Each event leaves the document unchanged, except `send-changes`, which
replaces it by the composition with the incoming delta. -/
theorem step_document (st : ServerState) (e : Event) :
    (step st e).1.document =
      (match e with
       | .sendChanges _ d => compose st.document d
       | _ => st.document) := by
  cases e with
  | join sid u cb =>
    simp only [step, handleJoin]
    split
    · rfl
    · rfl
  | getDocument sid => rfl
  | sendChanges sid d => rfl
  | typing sid u => simp [step, handleTyping]
  | stopTyping sid u => rfl
  | disconnect sid =>
    simp only [step, handleDisconnect]
    cases h : mapLookup st.users sid <;> simp [h]
  | advance t =>
    simp only [step, advanceTo]
    exact runDue_document _ _

theorem run_document (es : List Event) (st : ServerState) :
    (run st es).1.document = (sentDeltas es).foldl compose st.document := by
  induction es generalizing st with
  | nil => rfl
  | cons e es ih =>
    have h1 : (run st (e :: es)).1 = (run (step st e).1 es).1 := rfl
    rw [h1, ih, step_document]
    cases e <;> simp [sentDeltas]

/-! ### Helper lemmas: firing or skipping a single pending timer -/

theorem advanceTo_single_due (st : ServerState) (t : Nat) (p : PTimer)
    (hp : st.pending = [p]) (ht : p.expiry ≤ t) :
    advanceTo st t =
      ({ st with
          now := t,
          typingUsers := setDelete st.typingUsers p.user,
          pending := [] },
       [Msg.stopTypingMsg p.user]) := by
  simp [advanceTo, hp, runDue, earliestDue, ht, fireOne]

theorem advanceTo_not_due (st : ServerState) (t : Nat) (p : PTimer)
    (hp : st.pending = [p]) (ht : t < p.expiry) :
    advanceTo st t = ({ st with now := t }, []) := by
  have h' : ¬ p.expiry ≤ t := Nat.not_le.mpr ht
  simp [advanceTo, hp, runDue, earliestDue, h']

/-! ## Claim C1 — `InvalidEdit` rejection of out-of-bounds edits

The `send-changes` handler has no validation and no rejection path: the edit
is broadcast and composed whatever its spans.  The counterexample composes
the document `[insert "ab"]` (length 2) with the edit `[delete 5]`: the edit
is broadcast, and the stored document changes to the degenerate value
`[delete 3]`. -/

/-- C1 counterexample: an edit whose delete span (5) exceeds the document
length (2) is broadcast to the other clients and mutates the stored document,
instead of being rejected as `InvalidEdit` with the document unchanged. -/
theorem sendChanges_oversized_not_rejected_cex :
    contentLen [Op.ins "ab"] < baseLen [Op.del 5]
    ∧ (handleSendChanges { initialState with
          document := [Op.ins "ab"], users := [("s1", "alice")] }
          "s1" [Op.del 5]).2
        = [Msg.receiveChanges "s1" [Op.del 5] "alice"]
    ∧ (handleSendChanges { initialState with
          document := [Op.ins "ab"], users := [("s1", "alice")] }
          "s1" [Op.del 5]).1.document
        = [Op.del 3]
    ∧ (handleSendChanges { initialState with
          document := [Op.ins "ab"], users := [("s1", "alice")] }
          "s1" [Op.del 5]).1.document
        ≠ [Op.ins "ab"] := by decide

/-- C1 amended: even when the edit's retain/delete spans exceed the current
document length, the `send-changes` handler rejects nothing: it emits the
broadcast to the other clients and replaces the document by the composition
with the edit. -/
theorem sendChanges_composes_unconditionally (st : ServerState) (sid : String)
    (delta : Delta) (_h : contentLen st.document < baseLen delta) :
    handleSendChanges st sid delta =
      ({ st with document := compose st.document delta },
       [Msg.receiveChanges sid delta ((mapLookup st.users sid).getD "Unknown")]) :=
  rfl

theorem sendChanges_composes_unconditionally_witness :
    contentLen ({ initialState with document := [Op.ins "ab"] }
        : ServerState).document < baseLen [Op.del 5]
    ∧ handleSendChanges { initialState with document := [Op.ins "ab"] }
        "s9" [Op.del 5]
        = ({ initialState with document := compose [Op.ins "ab"] [Op.del 5] },
           [Msg.receiveChanges "s9" [Op.del 5] "Unknown"]) :=
  ⟨by decide,
    by exact sendChanges_composes_unconditionally _ "s9" [Op.del 5] (by decide)⟩

/-! ## Claim C2 — the document is the fold of the accepted edits -/

/-- C2: after processing any event trace from the initial state, the stored
document equals the left-to-right composition of the deltas carried by the
`send-changes` events, in server-receipt order, onto the empty document.
(Every received edit is accepted; no other event touches the document.) -/
theorem document_is_fold_of_sent_deltas (es : List Event) :
    (run initialState es).1.document = (sentDeltas es).foldl compose [] :=
  run_document es initialState

/-! ## Claim C3 — join with a taken name -/

/-- C3: when the requested name is already held by a live connection, the
join handler returns the failure acknowledgement to the requester only (when
a callback was supplied) and nothing else: the whole server state — in
particular the session registry — is unchanged, and no `load-document` or
`user-list` message is emitted. -/
theorem join_nameTaken_rejects_without_mutation (st : ServerState)
    (sid username : String) (hasCb : Bool)
    (h : (st.users.map Prod.snd).contains username = true) :
    handleJoin st sid username hasCb =
      (st,
        if hasCb then
          [Msg.callbackResult sid false (some "Username is already taken")]
        else []) := by
  unfold handleJoin
  rw [h]
  simp

theorem join_nameTaken_rejects_without_mutation_witness :
    (({ initialState with users := [("s1", "alice")] }
        : ServerState).users.map Prod.snd).contains "alice" = true
    ∧ handleJoin { initialState with users := [("s1", "alice")] }
        "s2" "alice" true
        = ({ initialState with users := [("s1", "alice")] },
           [Msg.callbackResult "s2" false (some "Username is already taken")]) :=
  ⟨by decide,
    join_nameTaken_rejects_without_mutation _ "s2" "alice" true (by decide)⟩

/-! ## Claim C4 — disconnect of a typing participant

The disconnect handler only deletes the name from `typingUsers` and
broadcasts a user list: it emits no `stop-typing`, and neither clears nor
forgets the pending expiry timer, which later fires for the departed name. -/

/-- C4 counterexample: "alice" joins and is typing (one pending timer); her
disconnect emits only the user-list broadcast — no `stop-typing` — and leaves
the pending timer, which then fires a stale `stop-typing` for her. -/
theorem disconnect_leaves_typing_timer_cex :
    "alice" ∈ (run initialState [Event.join "s1" "alice" true,
        Event.typing "s1" "alice"]).1.typingUsers
    ∧ (handleDisconnect (run initialState [Event.join "s1" "alice" true,
        Event.typing "s1" "alice"]).1 "s1").2 = [Msg.userList ["alice"]]
    ∧ Msg.stopTypingMsg "alice" ∉ (handleDisconnect (run initialState
        [Event.join "s1" "alice" true, Event.typing "s1" "alice"]).1 "s1").2
    ∧ (handleDisconnect (run initialState [Event.join "s1" "alice" true,
        Event.typing "s1" "alice"]).1 "s1").1.pending
        = [⟨0, "alice", 1000⟩]
    ∧ (advanceTo (handleDisconnect (run initialState [Event.join "s1" "alice" true,
        Event.typing "s1" "alice"]).1 "s1").1 1000).2
        = [Msg.stopTypingMsg "alice"] := by decide

/-- C4 amended: disconnect of a joined participant removes the name from the
typing set and broadcasts a user list, but emits no `stop-typing` broadcast,
and cancels nothing: the pending timer queue and the `typingTimeouts` map are
untouched (so a timer set before the disconnect still fires later). -/
theorem disconnect_no_stop_broadcast_no_cancel (st : ServerState)
    (sid username : String) (h : mapLookup st.users sid = some username) :
    handleDisconnect st sid =
      ({ st with
          typingUsers := setDelete st.typingUsers username,
          users := mapDelete st.users sid },
       [Msg.userList (st.users.map Prod.snd)])
    ∧ (handleDisconnect st sid).1.pending = st.pending
    ∧ (handleDisconnect st sid).1.typingTimeouts = st.typingTimeouts
    ∧ ∀ u, Msg.stopTypingMsg u ∉ (handleDisconnect st sid).2 := by
  refine ⟨?_, ?_, ?_, ?_⟩ <;> simp [handleDisconnect, h]

theorem disconnect_no_stop_broadcast_no_cancel_witness :
    mapLookup (run initialState [Event.join "s1" "alice" true,
        Event.typing "s1" "alice"]).1.users "s1" = some "alice"
    ∧ (handleDisconnect (run initialState [Event.join "s1" "alice" true,
        Event.typing "s1" "alice"]).1 "s1").1.pending
        = (run initialState [Event.join "s1" "alice" true,
            Event.typing "s1" "alice"]).1.pending
    ∧ Msg.stopTypingMsg "alice" ∉ (handleDisconnect (run initialState
        [Event.join "s1" "alice" true, Event.typing "s1" "alice"]).1 "s1").2 :=
  ⟨by decide,
    (disconnect_no_stop_broadcast_no_cancel _ "s1" "alice" (by decide)).2.1,
    (disconnect_no_stop_broadcast_no_cancel _ "s1" "alice" (by decide)).2.2.2 "alice"⟩

/-! ## Claim C5 — presence broadcast on disconnect -/

/-- C5: the user-list broadcast emitted while processing the disconnect of
the (only) joined participant "alice" is `["alice"]` — it still contains the
leaver, because the source computes it from the `users` map before
`users.delete(socket.id)` runs — even though her registry entry is indeed
removed afterwards. -/
theorem disconnect_broadcasts_stale_user_list :
    (handleDisconnect (run initialState [Event.join "s1" "alice" true]).1 "s1").2
      = [Msg.userList ["alice"]]
    ∧ mapLookup (handleDisconnect
        (run initialState [Event.join "s1" "alice" true]).1 "s1").1.users "s1"
      = none := by decide

/-! ## Claim C6 — explicit stop-typing on an idle name -/

/-- C6 counterexample: "alice" is idle (not in the typing set), yet an
explicit `stop-typing` signal for her emits a `stop-typing` broadcast — the
handler broadcasts unconditionally, so the signal is not a silent no-op. -/
theorem stopTyping_idle_still_broadcasts_cex :
    initialState.typingUsers.contains "alice" = false
    ∧ handleStopTyping initialState "alice"
        = (initialState, [Msg.stopTypingMsg "alice"])
    ∧ (handleStopTyping initialState "alice").2 ≠ [] := by decide

/-- C6 amended: an explicit `stop-typing` signal for a name that is already
idle leaves the whole server state unchanged (the deletion is an idempotent
no-op on state) but still emits exactly one `stop-typing` broadcast. -/
theorem stopTyping_idle_state_unchanged (st : ServerState) (username : String)
    (h : st.typingUsers.contains username = false) :
    handleStopTyping st username = (st, [Msg.stopTypingMsg username]) := by
  have hmem : username ∉ st.typingUsers := by simpa using h
  have hs : setDelete st.typingUsers username = st.typingUsers := by
    unfold setDelete
    refine List.filter_eq_self.mpr ?_
    intro y hy
    have hne : y ≠ username := fun he => hmem (he ▸ hy)
    simp [hne]
  simp [handleStopTyping, hs]

theorem stopTyping_idle_state_unchanged_witness :
    initialState.typingUsers.contains "bob" = false
    ∧ handleStopTyping initialState "bob"
        = (initialState, [Msg.stopTypingMsg "bob"]) :=
  ⟨by decide, stopTyping_idle_state_unchanged initialState "bob" (by decide)⟩

/-! ## Claim C7 — the 1000 ms typing window -/

/-- C7: from a quiescent tracker state (name `N` idle, no pending timers), a
typing signal for `N` emits exactly one `typing` broadcast (the Idle→Typing
edge) and schedules a single timer for 1000 ms later; if no further signal
arrives, the clock reaching (or passing) that deadline produces exactly one
`stop-typing` broadcast for `N`; a repeated signal strictly within the window
produces zero additional `typing` broadcasts and resets the single pending
timer to 1000 ms after the refresh. -/
theorem typing_window_behaviour (st : ServerState) (N : String)
    (hIdle : st.typingUsers.contains N = false)
    (hP : st.pending = []) :
    (handleTyping st N).2 = [Msg.typingMsg N]
    ∧ (handleTyping st N).1.pending = [⟨st.nextId, N, st.now + 1000⟩]
    ∧ (∀ k, (advanceTo (handleTyping st N).1 (st.now + 1000 + k)).2
        = [Msg.stopTypingMsg N])
    ∧ (∀ d, d < 1000 →
        (handleTyping (advanceTo (handleTyping st N).1 (st.now + d)).1 N).2 = []
        ∧ (handleTyping (advanceTo (handleTyping st N).1 (st.now + d)).1 N).1.pending
            = [⟨st.nextId + 1, N, st.now + d + 1000⟩]) := by
  have hm : N ∉ st.typingUsers := by simpa using hIdle
  have hst1 : handleTyping st N =
      ({ st with
          typingUsers := st.typingUsers ++ [N],
          typingTimeouts := mapSet st.typingTimeouts N st.nextId,
          pending := [⟨st.nextId, N, st.now + 1000⟩],
          nextId := st.nextId + 1 }, [Msg.typingMsg N]) := by
    cases hL : mapLookup st.typingTimeouts N <;>
      simp [handleTyping, hIdle, hm, hP, hL]
  refine ⟨by rw [hst1], by rw [hst1], ?_, ?_⟩
  · intro k
    rw [hst1, advanceTo_single_due _ _ ⟨st.nextId, N, st.now + 1000⟩ rfl
      (by show st.now + 1000 ≤ st.now + 1000 + k; omega)]
  · intro d hd
    rw [hst1, advanceTo_not_due _ _ ⟨st.nextId, N, st.now + 1000⟩ rfl
      (by show st.now + d < st.now + 1000; omega)]
    have hc : (st.typingUsers ++ [N]).contains N = true := by simp
    constructor <;>
      simp [handleTyping, hc, mapLookup_mapSet_self]

theorem typing_window_behaviour_witness :
    initialState.typingUsers.contains "alice" = false
    ∧ initialState.pending = []
    ∧ (handleTyping initialState "alice").2 = [Msg.typingMsg "alice"]
    ∧ (advanceTo (handleTyping initialState "alice").1
        (initialState.now + 1000 + 0)).2 = [Msg.stopTypingMsg "alice"]
    ∧ (handleTyping (advanceTo (handleTyping initialState "alice").1
        (initialState.now + 500)).1 "alice").2 = [] :=
  ⟨by decide, rfl,
    (typing_window_behaviour initialState "alice" (by decide) rfl).1,
    (typing_window_behaviour initialState "alice" (by decide) rfl).2.2.1 0,
    ((typing_window_behaviour initialState "alice" (by decide) rfl).2.2.2 500
      (by omega)).1⟩

/-! ## Claim C8 — signals from unknown connections -/

/-- C8 counterexample: a `send-changes` from the never-joined connection
"ghost" is not a no-op: the document is modified and a broadcast with author
name "Unknown" is emitted; likewise a `typing` signal through an unknown
connection is processed and broadcast under the payload name. -/
theorem unknown_connection_still_processed_cex :
    mapLookup initialState.users "ghost" = none
    ∧ (handleSendChanges initialState "ghost" [Op.ins "hi"]).1.document
        = [Op.ins "hi"]
    ∧ (handleSendChanges initialState "ghost" [Op.ins "hi"]).1.document
        ≠ initialState.document
    ∧ (handleSendChanges initialState "ghost" [Op.ins "hi"]).2
        = [Msg.receiveChanges "ghost" [Op.ins "hi"] "Unknown"]
    ∧ (step initialState (Event.typing "ghost" "mallory")).2
        = [Msg.typingMsg "mallory"] := by decide

/-- C8 amended: a signal from a connection absent from the session registry
does not crash the server, but it is not a no-op either: `send-changes` is
broadcast with the fallback author name "Unknown" and composed into the
document, and a `typing` event is handled exactly as for a joined connection,
using only the payload-supplied name. -/
theorem unknown_connection_processed (st : ServerState) (sid u : String)
    (delta : Delta) (h : mapLookup st.users sid = none) :
    handleSendChanges st sid delta =
      ({ st with document := compose st.document delta },
       [Msg.receiveChanges sid delta "Unknown"])
    ∧ step st (Event.typing sid u) = handleTyping st u := by
  constructor
  · simp [handleSendChanges, h]
  · rfl

theorem unknown_connection_processed_witness :
    mapLookup initialState.users "ghost" = none
    ∧ (handleSendChanges initialState "ghost" [Op.ins "hi"] =
        ({ initialState with
            document := compose initialState.document [Op.ins "hi"] },
         [Msg.receiveChanges "ghost" [Op.ins "hi"] "Unknown"])
      ∧ step initialState (Event.typing "ghost" "mallory")
          = handleTyping initialState "mallory") :=
  ⟨by decide,
    unknown_connection_processed initialState "ghost" "mallory" [Op.ins "hi"]
      (by decide)⟩

/-! ## Claim C9 — ordering of the join acknowledgement -/

/-- C9 counterexample: for an accepted join, the handler's emission order is
`load-document`, then the `user-list` broadcast already containing the
joiner, then the success acknowledgement — so the acknowledgement *is*
preceded by a user-list message containing the joiner. -/
theorem join_ack_after_inclusive_user_list_cex :
    (handleJoin initialState "s1" "alice" true).2
      = [Msg.loadDocument "s1" [], Msg.userList ["alice"],
         Msg.callbackResult "s1" true none]
    ∧ (handleJoin initialState "s1" "alice" true).2[1]?
        = some (Msg.userList ["alice"])
    ∧ (handleJoin initialState "s1" "alice" true).2[2]?
        = some (Msg.callbackResult "s1" true none) := by decide

/-- C9 amended: on an accepted join the handler emits, in order,
`load-document` to the joiner, the `user-list` broadcast — which contains the
joiner's name — and only then the success acknowledgement.  The joiner hence
receives a user list containing itself *before* the acknowledgement, and
never observes itself absent from a user list delivered after it. -/
theorem join_emits_user_list_with_joiner_before_ack (st : ServerState)
    (sid username : String)
    (h : (st.users.map Prod.snd).contains username = false) :
    handleJoin st sid username true =
      ({ st with users := mapSet st.users sid username },
       [Msg.loadDocument sid st.document,
        Msg.userList ((mapSet st.users sid username).map Prod.snd),
        Msg.callbackResult sid true none])
    ∧ username ∈ (mapSet st.users sid username).map Prod.snd := by
  constructor
  · unfold handleJoin
    rw [h]
    simp
  · exact mem_values_mapSet _ _ _

theorem join_emits_user_list_with_joiner_before_ack_witness :
    (initialState.users.map Prod.snd).contains "alice" = false
    ∧ (handleJoin initialState "s1" "alice" true =
        ({ initialState with users := mapSet initialState.users "s1" "alice" },
         [Msg.loadDocument "s1" initialState.document,
          Msg.userList ((mapSet initialState.users "s1" "alice").map Prod.snd),
          Msg.callbackResult "s1" true none])
      ∧ "alice" ∈ (mapSet initialState.users "s1" "alice").map Prod.snd) :=
  ⟨by decide,
    join_emits_user_list_with_joiner_before_ack initialState "s1" "alice"
      (by decide)⟩

/-! ## Claim C10 — a second join from an already-joined connection -/

/-- C10: the registry maps each connection id to at most one name (it is a
map keyed by connection id).  A connection already joined as `A` that sends a
second join with an untaken name `B` is accepted: its entry is overwritten
from `A` to `B` (so, when no other connection holds `A`, the name `A` is
freed immediately), the document snapshot and the full user list are re-sent,
and a success acknowledgement is returned. -/
theorem second_join_overwrites_mapping (st : ServerState) (sid A B : String)
    (hasCb : Bool)
    (hA : mapLookup st.users sid = some A)
    (hB : (st.users.map Prod.snd).contains B = false)
    (hOnly : ∀ p ∈ st.users, p.2 = A → p.1 = sid) :
    handleJoin st sid B hasCb =
      ({ st with users := mapSet st.users sid B },
       [Msg.loadDocument sid st.document,
        Msg.userList ((mapSet st.users sid B).map Prod.snd)]
         ++ if hasCb then [Msg.callbackResult sid true none] else [])
    ∧ mapLookup (mapSet st.users sid B) sid = some B
    ∧ ((mapSet st.users sid B).map Prod.snd).contains A = false := by
  obtain ⟨q, hf, hq2⟩ :
      ∃ q, st.users.find? (fun p => p.1 = sid) = some q ∧ q.2 = A := by
    unfold mapLookup at hA
    cases hf : st.users.find? (fun p => p.1 = sid) with
    | none => simp [hf] at hA
    | some q => exact ⟨q, rfl, by simpa [hf] using hA⟩
  have hq1 : q.1 = sid := by
    have := List.find?_some hf
    simpa using this
  have hqmem : q ∈ st.users := List.mem_of_find?_eq_some hf
  have hmemA : A ∈ st.users.map Prod.snd :=
    hq2 ▸ List.mem_map.mpr ⟨q, hqmem, rfl⟩
  have hnotB : B ∉ st.users.map Prod.snd := by simpa using hB
  have hAB : A ≠ B := fun he => hnotB (he ▸ hmemA)
  have hany : st.users.any (fun p => p.1 = sid) = true :=
    List.any_eq_true.mpr ⟨q, hqmem, by simp [hq1]⟩
  refine ⟨by unfold handleJoin; rw [hB]; simp,
    mapLookup_mapSet_self _ _ _, ?_⟩
  unfold mapSet
  simp only [hany, if_true]
  simp only [List.contains_eq_any_beq, List.any_eq_false]
  intro y hy
  simp only [List.mem_map] at hy
  obtain ⟨z, ⟨p, hp, hpz⟩, hzy⟩ := hy
  intro hab
  have hay : A = y := by simpa using hab
  by_cases hps : p.1 = sid
  · have hz2 : z = (sid, B) := by simp [← hpz, hps]
    have hyB : y = B := by rw [← hzy, hz2]
    exact hAB (hay.trans hyB)
  · have hz2 : z = p := by simp [← hpz, hps]
    have hyp : y = p.2 := by rw [← hzy, hz2]
    exact hps (hOnly p hp (hay.trans hyp).symm)

theorem second_join_overwrites_mapping_witness :
    mapLookup ({ initialState with users := [("s1", "anna")] }
        : ServerState).users "s1" = some "anna"
    ∧ (({ initialState with users := [("s1", "anna")] }
        : ServerState).users.map Prod.snd).contains "bea" = false
    ∧ (handleJoin { initialState with users := [("s1", "anna")] }
          "s1" "bea" true =
        ({ initialState with users := mapSet [("s1", "anna")] "s1" "bea" },
         [Msg.loadDocument "s1" initialState.document,
          Msg.userList ((mapSet [("s1", "anna")] "s1" "bea").map Prod.snd)]
           ++ [Msg.callbackResult "s1" true none])
      ∧ mapLookup (mapSet [("s1", "anna")] "s1" "bea") "s1" = some "bea"
      ∧ ((mapSet [("s1", "anna")] "s1" "bea").map Prod.snd).contains "anna"
          = false) := by
  refine ⟨by decide, by decide, ?_⟩
  have h := second_join_overwrites_mapping
    { initialState with users := [("s1", "anna")] } "s1" "anna" "bea" true
    (by decide) (by decide) (by decide)
  exact h

end RTEditor
